import Mathlib

/-
Verification of the timeline compositor of denganliang/mcp-srt-tts.

The embedding is a shallow translation of `src/main.py` into Lean:
* Python floats are modelled as exact rationals (`ℚ`); the properties at
  stake (truncation vs rounding, additive mixing, peak normalisation,
  cursor monotonicity) are exact-arithmetic relationships that do not
  depend on float rounding noise.
* numpy 1-D / 2-D float arrays are modelled by the inductive `NArr`
  (`one` = 1-D, `two` = 2-D list of rows); in-place numpy updates become
  functional updates; a numpy broadcast error (uncaught exception) is
  modelled by an `Option` result being `none`.
* The network call of `TTSEngine.synthesize` and the `soundfile` decode
  are external effects; each loop iteration receives their combined
  outcome as an oracle value `SynthOutcome` (no data / decode error /
  decoded clip with its sample rate), exactly the three ways the code
  distinguishes at lines 188-229 of `src/main.py`.
* Python strings are modelled as `List Char`; `str.split`, `str.strip`
  and `int(...)` are re-implemented below with matching semantics
  (`pyParseInt` accepts an optional sign, decimal digits and surrounding
  whitespace; Python's more exotic acceptances such as underscore
  separators or non-ASCII digits are outside the model).
-/

/-! ### Python string primitives -/

/-- Whitespace characters stripped by Python's `str.strip()`. -/
def pyIsSpace (c : Char) : Bool :=
  c = ' ' || c = '\t' || c = '\n' || c = '\x0d' || c = '\x0b' || c = '\x0c'

/-- Python `str.strip()` on a character list. -/
def pyStrip (l : List Char) : List Char :=
  ((l.dropWhile pyIsSpace).reverse.dropWhile pyIsSpace).reverse

/-- Python `str.split(sep)` for a single-character separator. -/
def splitOnChar (sep : Char) : List Char → List (List Char)
  | [] => [[]]
  | c :: rest =>
    if c = sep then
      [] :: splitOnChar sep rest
    else
      match splitOnChar sep rest with
      | [] => [[c]]
      | h :: t => (c :: h) :: t

/-- Does `pat` occur at the head of `l`? -/
def isHeadSeq : List Char → List Char → Bool
  | [], _ => true
  | _ :: _, [] => false
  | p :: ps, c :: cs => p = c && isHeadSeq ps cs

/-- Prepend a character to the first chunk of a split result. -/
def consFirst (c : Char) : List (List Char) → List (List Char)
  | [] => [[c]]
  | h :: t => (c :: h) :: t

/-- Fuel-indexed worker for `pySplit`; the fuel is the input length, which
always suffices because each step consumes at least one character. -/
def pySplitAux (sep : List Char) : ℕ → List Char → List (List Char)
  | 0, l => [l]
  | _ + 1, [] => [[]]
  | fuel + 1, c :: rest =>
    if isHeadSeq sep (c :: rest) then
      [] :: pySplitAux sep fuel (List.drop sep.length (c :: rest))
    else
      consFirst c (pySplitAux sep fuel rest)

/-- Python `str.split(sep)` for a non-empty multi-character separator:
splits on every non-overlapping leftmost occurrence. -/
def pySplit (sep l : List Char) : List (List Char) :=
  pySplitAux sep l.length l

/-- Python `sep in line` substring test, via split. -/
def containsSeq (sep l : List Char) : Bool :=
  decide (2 ≤ (pySplit sep l).length)

/-- Numeric value of a list of decimal digits. -/
def digitsVal (ds : List Char) : ℤ :=
  (ds.foldl (fun n c => 10 * n + (c.toNat - 48)) 0 : ℕ)

/-- Python `int(s)`: optional surrounding whitespace, optional sign,
then a non-empty run of decimal digits; `none` models `ValueError`. -/
def pyParseInt (l : List Char) : Option ℤ :=
  match pyStrip l with
  | [] => none
  | '+' :: ds => if ds ≠ [] ∧ ds.all Char.isDigit then some (digitsVal ds) else none
  | '-' :: ds => if ds ≠ [] ∧ ds.all Char.isDigit then some (-(digitsVal ds)) else none
  | ds => if ds.all Char.isDigit then some (digitsVal ds) else none

/-- Python `" ".join(lines)`. -/
def joinSpace (ls : List (List Char)) : List Char :=
  List.intercalate [' '] ls

/-! ### SRT parsing (`parse_time`, block handling of `parse_srt`) -/

/-- The success path of the `try` block of `parse_time` (`src/main.py`
lines 68-71): `h, m, s = split(':')` (exactly three parts), then
`s, ms = s.split(',')` (exactly two parts), then the four `int(...)`
conversions; `none` is the `ValueError` that the `except` catches. -/
def parse_time_fields (s : List Char) : Option (ℤ × ℤ × ℤ × ℤ) :=
  match splitOnChar ':' s with
  | [h, m, srest] =>
    match splitOnChar ',' srest with
    | [sec, ms] =>
      match pyParseInt h, pyParseInt m, pyParseInt sec, pyParseInt ms with
      | some hv, some mv, some sv, some msv => some (hv, mv, sv, msv)
      | _, _, _, _ => none
    | _ => none
  | _ => none

/-- `parse_time` of `src/main.py` lines 66-73: converts `H:M:S,mmm` to
seconds; any `ValueError` (wrong field count on either split, or a field
that is not an integer) is caught and yields `0.0`. -/
def parse_time (s : List Char) : ℚ :=
  match parse_time_fields s with
  | some (hv, mv, sv, msv) =>
    (hv : ℚ) * 3600 + (mv : ℚ) * 60 + (sv : ℚ) + (msv : ℚ) / 1000
  | none => 0

/-- Boolean shape test: `s` is of the form `H:M:S,mmm` with all four
fields parseable as Python integers (the exact success condition of the
`try` block inside `parse_time`). -/
def timeShapeOk (s : List Char) : Bool :=
  (parse_time_fields s).isSome

/-- One parsed subtitle segment (`{'start': .., 'end': .., 'text': ..}`);
the Python key `end` is rendered as the field `stop`. -/
structure Segment where
  start : ℚ
  stop : ℚ
  text : List Char
deriving DecidableEq, Repr

/-- The separator `' --> '` used to split a timestamp line. -/
def arrowSep : List Char := [' ', '-', '-', '>', ' ']

/-- The cleaned line list of a block (`src/main.py` line 89): split the
block on newlines, strip each line, keep the non-empty ones. -/
def cleanLines (blk : List Char) : List (List Char) :=
  ((splitOnChar '\n' blk).map pyStrip).filter (fun l => l ≠ [])

/-- First line containing `-->`, together with the lines after it
(`src/main.py` lines 94-104). -/
def findTimeLine : List (List Char) → Option (List Char × List (List Char))
  | [] => none
  | l :: rest =>
    if containsSeq ['-', '-', '>'] l then some (l, rest) else findTimeLine rest

/-- Processing of one SRT block (`src/main.py` lines 88-119): skip blocks
with fewer than two non-empty lines or without a `-->` line; split the
timestamp line on `' --> '` — exactly two parts are required, otherwise
the unpack raises `ValueError` and the block is skipped; both parts are
stripped and fed to `parse_time`. -/
def processBlock (blk : List Char) : Option Segment :=
  if (cleanLines blk).length < 2 then none
  else
    (findTimeLine (cleanLines blk)).bind fun p =>
      match pySplit arrowSep p.1 with
      | [a, b] =>
        some ⟨parse_time (pyStrip a), parse_time (pyStrip b), pyStrip (joinSpace p.2)⟩
      | _ => none

/-! ### Markup stripping (`re.sub(r'<[^>]+>', '', text)`, line 179) -/

/-- Fuel-indexed worker for `removeTags`; a tag is `<`, then one or more
characters other than `>`, then `>` (the regex `<[^>]+>`); unmatched `<`
is kept. -/
def removeTagsAux : ℕ → List Char → List Char
  | 0, l => l
  | _ + 1, [] => []
  | fuel + 1, c :: rest =>
    if c = '<' then
      let run := rest.takeWhile (fun d => d ≠ '>')
      if run ≠ [] ∧ rest.drop run.length ≠ [] then
        removeTagsAux fuel (rest.drop (run.length + 1))
      else
        c :: removeTagsAux fuel rest
    else
      c :: removeTagsAux fuel rest

/-- `re.sub(r'<[^>]+>', '', text)` on a character list. -/
def removeTags (l : List Char) : List Char :=
  removeTagsAux l.length l

/-- `clean_text` of `src/main.py` line 179: strip markup tags, then
whitespace. -/
def cleanedText (l : List Char) : List Char :=
  pyStrip (removeTags l)

/-! ### numpy arrays -/

/-- A numpy float array as returned by `sf.read` / created by `np.zeros`:
`one` is a 1-D array (mono), `two` is a 2-D array as a list of rows
(frames), each row one sample per channel. -/
inductive NArr where
  | one : List ℚ → NArr
  | two : List (List ℚ) → NArr
deriving DecidableEq, Repr

/-- `len(a)` — number of frames (rows). -/
def NArr.len : NArr → ℕ
  | .one xs => xs.length
  | .two rows => rows.length

/-- Column count of a 2-D row list (`arr.shape[1]`; rows are uniform in
numpy, the model reads the first row). -/
def rowCols (rows : List (List ℚ)) : ℕ :=
  (rows.headD []).length

/-- All entries of the array, flattened. -/
def NArr.entries : NArr → List ℚ
  | .one xs => xs
  | .two rows => rows.flatten

/-- Map a scalar function over every entry. -/
def NArr.mapQ (f : ℚ → ℚ) : NArr → NArr
  | .one xs => .one (xs.map f)
  | .two rows => .two (rows.map (fun r => r.map f))

/-! ### Fader (`src/main.py` lines 200-211) -/

/-- `np.linspace(0, 1, n)` at index `i`: `i/(n-1)` for `n ≥ 2`, the single
value `0` for `n = 1`. -/
def linspace01 (n i : ℕ) : ℚ :=
  if n ≤ 1 then 0 else (i : ℚ) / ((n : ℚ) - 1)

/-- The gain applied by the fade block at frame `i` of a clip of `n`
frames with fade window `fs`: the rising ramp on the first `fs` frames,
the falling ramp (`fade_curve[::-1]`) on the last `fs`, gain `1`
elsewhere. -/
def fadeCoef (fs n i : ℕ) : ℚ :=
  if i < fs then linspace01 fs i
  else if n - fs ≤ i then linspace01 fs (n - 1 - i)
  else 1

/-- Structurally recursive indexed map (offset-carrying). -/
def mapIdxG {α : Type} (f : ℕ → α → α) : ℕ → List α → List α
  | _, [] => []
  | k, x :: xs => f k x :: mapIdxG f (k + 1) xs

/-- The fade in/out of `src/main.py` lines 200-211.
`fade_samples = int(0.05 * sr)` is modelled as `sr / 20` (exact
truncation of `sr/20`); the fade is applied only when `fade_samples > 0`
and `fade_samples * 2 < len(data)`; for 2-D clips the ramp is a column
vector, broadcast across channels. -/
def fadeNArr (sr : ℕ) (a : NArr) : NArr :=
  let fs := sr / 20
  let n := a.len
  if 0 < fs ∧ fs * 2 < n then
    match a with
    | .one xs => .one (mapIdxG (fun i x => x * fadeCoef fs n i) 0 xs)
    | .two rows => .two (mapIdxG (fun i r => r.map (fun x => x * fadeCoef fs n i)) 0 rows)
  else a

/-! ### Timeline buffer operations (`src/main.py` lines 213-257) -/

/-- `np.zeros` buffer shaped like the first clip, `n` frames
(`src/main.py` lines 216-223). -/
def initBuffer (data : NArr) (n : ℕ) : NArr :=
  match data with
  | .one _ => .one (List.replicate n 0)
  | .two rows => .two (List.replicate n (List.replicate (rowCols rows) 0))

/-- Zero-extension of a list to length `n` (for `n ≥ length`): the effect
of `new_arr = zeros(n); new_arr[:len(l)] = l`. -/
def growList {α : Type} (z : α) (l : List α) (n : ℕ) : List α :=
  l ++ List.replicate (n - l.length) z

/-- Buffer reallocation of `src/main.py` lines 245-251: a zero buffer of
the new length with the old contents copied into the prefix. -/
def growBuf (fa : NArr) (n : ℕ) : NArr :=
  match fa with
  | .one xs => .one (growList 0 xs n)
  | .two rows => .two (growList (List.replicate (rowCols rows) 0) rows n)

/-- Lines 244-251: extend the buffer when `end_sample > len(final_audio)`,
to `int(end_sample + sample_rate * 10)` frames. -/
def ensureCapacity (sr : ℕ) (fa : NArr) (endS : ℤ) : NArr :=
  if (fa.len : ℤ) < endS then growBuf fa (endS + (sr : ℤ) * 10).toNat else fa

/-- Row-wise elementwise addition of two 2-D arrays; `none` models the
numpy broadcast error raised when row lengths differ.  (numpy would also
accept a 1-column right side by broadcasting; that shape cannot be
produced by `sf.read`/`np.column_stack` and is outside the model.) -/
def zipAddRows : List (List ℚ) → List (List ℚ) → Option (List (List ℚ))
  | [], [] => some []
  | r :: rs, d :: ds =>
    if r.length = d.length then
      (zipAddRows rs ds).map (fun t => List.zipWith (fun x y => x + y) r d :: t)
    else none
  | _, _ => none

/-- `final_audio[start:end] += data` (line 257): add `data` into the
window `[s, s + data.len)` of the buffer.  `none` models the numpy
exception raised on a negative start, an out-of-range window (the slice
would be shorter than `data`) or a shape mismatch between the buffer and
the clip (in particular a 1-D buffer with a 2-D clip). -/
def sliceAdd (fa : NArr) (start : ℤ) (data : NArr) : Option NArr :=
  if start < 0 then none
  else
    let s := start.toNat
    match fa, data with
    | .one buf, .one xs =>
      if s + xs.length ≤ buf.length then
        some (.one (buf.take s ++
          List.zipWith (fun x y => x + y) ((buf.drop s).take xs.length) xs ++
          buf.drop (s + xs.length)))
      else none
    | .two buf, .two rows =>
      if s + rows.length ≤ buf.length then
        match zipAddRows ((buf.drop s).take rows.length) rows with
        | some mixed => some (.two (buf.take s ++ mixed ++ buf.drop (s + rows.length)))
        | none => none
      else none
    | _, _ => none

/-- Lines 253-257: if the buffer is 2-D and the clip 1-D, duplicate the
clip across two channels (`np.column_stack((data, data))`), then add the
clip into the buffer window. -/
def writeClip (fa : NArr) (start : ℤ) (data : NArr) : Option NArr :=
  let data' :=
    match fa, data with
    | .two _, .one xs => NArr.two (xs.map (fun x => [x, x]))
    | _, _ => data
  sliceAdd fa start data'

/-- `arr[:n]` on a buffer (the trim of lines 265-266). -/
def trimArr (fa : NArr) (n : ℕ) : NArr :=
  match fa with
  | .one xs => .one (xs.take n)
  | .two rows => .two (rows.take n)

/-! ### Normalizer (`src/main.py` lines 268-272) -/

/-- `np.max(np.abs(arr))` as a fold with neutral element `0`; all entries
have non-negative absolute value so for a non-empty array this is the
true maximum (numpy raises on an empty array, which the call site never
produces). -/
def peakList (l : List ℚ) : ℚ :=
  l.foldr (fun x m => max |x| m) 0

/-- Peak absolute sample value of a buffer. -/
def peak (a : NArr) : ℚ :=
  peakList a.entries

/-- Lines 268-272: divide by the peak only when it exceeds `1.0`. -/
def normalizeArr (a : NArr) : NArr :=
  if 1 < peak a then a.mapQ (fun x => x / peak a) else a

/-! ### The per-segment loop (`srt_to_audio`, lines 166-277) -/

/-- Python `int(q)` on a float: truncation toward zero. -/
def pyTrunc (q : ℚ) : ℤ :=
  if 0 ≤ q then ⌊q⌋ else ⌈q⌉

/-- Line 232: `start_sample = int(start_time * sample_rate)`. -/
def nominalSample (t : ℚ) (r : ℕ) : ℤ :=
  pyTrunc (t * (r : ℚ))

/-- Lines 234-238: the placement offset actually used — the nominal
sample, shifted forward to the cursor when it would start before the
cursor. -/
def resolvedOffset (t : ℚ) (r : ℕ) (cursor : ℤ) : ℤ :=
  if nominalSample t r < cursor then cursor else nominalSample t r

/-- The outcome of one synthesis + decode attempt, the oracle input of a
loop iteration: `failure` is `synthesize` returning no data (lines
188-190), `badDecode` is `sf.read` raising (lines 193-198), `ok` is a
decoded clip with its sample rate. -/
inductive SynthOutcome where
  | failure : SynthOutcome
  | badDecode : SynthOutcome
  | ok : NArr → ℕ → SynthOutcome
deriving DecidableEq, Repr

/-- The mutable loop state of `srt_to_audio`: `final_audio`,
`sample_rate`, `success_count`, `next_available_sample`. -/
structure St where
  finalAudio : Option NArr
  sampleRate : ℕ
  successCount : ℕ
  nextAvailable : ℤ
deriving DecidableEq, Repr

/-- Initial loop state (lines 167-171). -/
def initSt : St :=
  ⟨none, 0, 0, 0⟩

/-- The placement tail of an iteration (lines 231-258), once a clip with
the established sample rate `srate` is in hand: resolve the offset
against the cursor, grow the buffer on overflow, mix the clip in, bump
`success_count`, advance the cursor to `end_sample`.  The returned event
`(offset, frames)` records the placement; `none` is an uncaught numpy
error aborting the run. -/
def placedStep (st : St) (srate : ℕ) (fa0 : NArr) (t : ℚ) (dataF : NArr) :
    Option (St × Option (ℤ × ℕ)) :=
  let startS := resolvedOffset t srate st.nextAvailable
  let endS := startS + (dataF.len : ℤ)
  match writeClip (ensureCapacity srate fa0 endS) startS dataF with
  | none => none
  | some fa2 => some (⟨some fa2, srate, st.successCount + 1, endS⟩, some (startS, dataF.len))

/-- One iteration of the segment loop (lines 173-258).  Empty cleaned
text skips the segment before any synthesis; a failed synthesis or decode
skips it; the first decoded clip initialises the buffer (shape from the
faded clip, `int(total_duration * sample_rate)` frames) and fixes the
sample rate — a mismatch on that same iteration is impossible since the
rate was just set from the clip; a later clip with a different rate is
skipped. -/
def step (td : ℚ) (st : St) (seg : Segment) (out : SynthOutcome) :
    Option (St × Option (ℤ × ℕ)) :=
  if cleanedText seg.text = [] then some (st, none)
  else
    match out with
    | .failure => some (st, none)
    | .badDecode => some (st, none)
    | .ok raw sr =>
      let dataF := fadeNArr sr raw
      match st.finalAudio with
      | some fa =>
        if sr ≠ st.sampleRate then some (st, none)
        else placedStep st st.sampleRate fa seg.start dataF
      | none =>
        placedStep st sr (initBuffer dataF (pyTrunc (td * (sr : ℚ))).toNat) seg.start dataF

/-- The whole segment loop, also collecting the placement events in
order; `none` propagates an uncaught exception. -/
def runLoop (td : ℚ) : St → List (Segment × SynthOutcome) →
    Option (St × List (ℤ × ℕ))
  | st, [] => some (st, [])
  | st, p :: rest =>
    (step td st p.1 p.2).bind fun q =>
      (runLoop td q.1 rest).map fun q2 =>
        (q2.1, match q.2 with | none => q2.2 | some e => e :: q2.2)

/-- `max(s['end'] for s in segments)` (line 162); only called on a
non-empty list. -/
def maxEnd : List Segment → ℚ
  | [] => 0
  | s :: rest => rest.foldl (fun a b => max a b.stop) s.stop

/-- The save phase, lines 261-275: an output file is written only when a
buffer exists and `success_count > 0`; the buffer is trimmed to the
cursor when `0 < next_available_sample < len(final_audio)` and then
normalized.  `some` carries the samples written to disk, `none` is the
"No audio generated." path that writes nothing. -/
def finishRun (st : St) : Option NArr :=
  match st.finalAudio with
  | none => none
  | some fa =>
    if 0 < st.successCount then
      let fa' :=
        if 0 < st.nextAvailable ∧ st.nextAvailable < (fa.len : ℤ) then
          trimArr fa st.nextAvailable.toNat
        else fa
      some (normalizeArr fa')
    else none

/-- How a run of `srt_to_audio` can end: `fatalExit c` is `sys.exit(c)`,
`crashed` an uncaught exception (Python exits 1 with a traceback),
`finished out` a normal return with `out` the samples written (or `none`
when no file is produced). -/
inductive RunResult where
  | fatalExit : ℕ → RunResult
  | crashed : RunResult
  | finished : Option NArr → RunResult
deriving DecidableEq, Repr

/-- Process exit status of a run result. -/
def RunResult.exitCode : RunResult → ℕ
  | .fatalExit c => c
  | .crashed => 1
  | .finished _ => 0

/-- `srt_to_audio` (lines 123-277) from the parsed segments on, with each
segment paired with its synthesis oracle.  The local reference-audio
existence check and the network upload are file/network effects outside
the embedding (their failure is `sys.exit(1)` before the loop,
respectively a warning).  An empty segment list is `sys.exit(1)`
(line 159); `total_duration = last_end_time + 1.0` (line 163). -/
def srt_to_audio (inputs : List (Segment × SynthOutcome)) : RunResult :=
  if inputs = [] then .fatalExit 1
  else
    match runLoop (maxEnd (inputs.map Prod.fst) + 1) initSt inputs with
    | none => .crashed
    | some (st, _) => .finished (finishRun st)

/-- The placement events of a run (placed offsets and clip lengths, in
order); `none` when the run crashes. -/
def runEvents (inputs : List (Segment × SynthOutcome)) : Option (List (ℤ × ℕ)) :=
  match runLoop (maxEnd (inputs.map Prod.fst) + 1) initSt inputs with
  | none => none
  | some (_, evs) => some evs

/-! ### Compact mode (spec-modelled) -/

/-- Modelled from the spec: the default inter-segment silence gap of the
compact composition strategy, 200 ms (spec §4.3); the compact strategy
itself is part of the repository but not present under `src/`
(`src/main.py` holds only the timed strategy). -/
def gapDefault : ℚ := 1 / 5

/-- Modelled from the spec: compact-mode timestamp regeneration
(spec §4.3, §8 Scenario E) — clips of the given durations are
concatenated back-to-back from time `t` with a fixed silence gap between
consecutive clips, and a new timing record of actual playback times is
produced; original timestamps are discarded.  This code is part of the
repository but not under `src/`. -/
def compactTimestampsFrom (t : ℚ) : List ℚ → ℚ → List (ℚ × ℚ)
  | [], _ => []
  | d :: ds, gap => (t, t + d) :: compactTimestampsFrom (t + d + gap) ds gap

/-- Modelled from the spec: the regenerated timing record of compact mode
starting at time zero. -/
def compactTimestamps (durs : List ℚ) (gap : ℚ) : List (ℚ × ℚ) :=
  compactTimestampsFrom 0 durs gap

/-- A placement-event list is chained from cursor `c`: each event starts
at or after the current cursor and moves the cursor to its own end. -/
def Chained : ℤ → List (ℤ × ℕ) → Prop
  | _, [] => True
  | c, (o, d) :: evs => c ≤ o ∧ Chained (o + d) evs

/-! ## Helper lemmas -/

theorem getD_take_eq {α : Type} (d : α) :
    ∀ (l : List α) (n i : ℕ), i < n → (l.take n).getD i d = l.getD i d := by
  intro l
  induction l with
  | nil => intro n i _; simp
  | cons a t ih =>
    intro n i h
    cases n with
    | zero => omega
    | succ m =>
      cases i with
      | zero => simp
      | succ j =>
        simp only [List.take_succ_cons, List.getD_cons_succ]
        exact ih m j (by omega)

theorem getD_drop_eq {α : Type} (d : α) :
    ∀ (l : List α) (n i : ℕ), (l.drop n).getD i d = l.getD (n + i) d := by
  intro l
  induction l with
  | nil => intro n i; simp
  | cons a t ih =>
    intro n i
    cases n with
    | zero => simp
    | succ m =>
      simp only [List.drop_succ_cons]
      rw [ih m i]
      have : m + 1 + i = (m + i) + 1 := by omega
      rw [this, List.getD_cons_succ]

theorem getD_zipWith_eq {α : Type} (d : α) (op : α → α → α) :
    ∀ (a b : List α) (i : ℕ), i < a.length → i < b.length →
      (List.zipWith op a b).getD i d = op (a.getD i d) (b.getD i d) := by
  intro a
  induction a with
  | nil => intro b i h _; simp at h
  | cons x xs ih =>
    intro b i h1 h2
    cases b with
    | nil => simp at h2
    | cons y ys =>
      cases i with
      | zero => simp
      | succ j =>
        simp only [List.zipWith_cons_cons, List.getD_cons_succ]
        exact ih ys j (by simpa using h1) (by simpa using h2)

theorem getD_map_mul (r : List ℚ) (c : ℚ) :
    ∀ j : ℕ, (r.map (fun x => x * c)).getD j 0 = r.getD j 0 * c := by
  induction r with
  | nil => intro j; simp
  | cons x xs ih =>
    intro j
    cases j with
    | zero => simp
    | succ m => simpa using ih m

theorem getD_replicate_lt {α : Type} (d z : α) (n i : ℕ) (h : i < n) :
    (List.replicate n z).getD i d = z := by
  induction n generalizing i with
  | zero => omega
  | succ m ih =>
    cases i with
    | zero => simp
    | succ j =>
      simp only [List.replicate_succ, List.getD_cons_succ]
      exact ih j (by omega)

theorem mapIdxG_length {α : Type} (f : ℕ → α → α) :
    ∀ (k : ℕ) (xs : List α), (mapIdxG f k xs).length = xs.length := by
  intro k xs
  induction xs generalizing k with
  | nil => rfl
  | cons x t ih => simpa [mapIdxG] using ih (k + 1)

theorem mapIdxG_getD {α : Type} (d : α) (f : ℕ → α → α) :
    ∀ (xs : List α) (k i : ℕ), i < xs.length →
      (mapIdxG f k xs).getD i d = f (k + i) (xs.getD i d) := by
  intro xs
  induction xs with
  | nil => intro k i h; simp at h
  | cons x t ih =>
    intro k i h
    cases i with
    | zero => simp [mapIdxG]
    | succ j =>
      simp only [mapIdxG, List.getD_cons_succ]
      rw [ih (k + 1) j (by simpa using h)]
      congr 1
      omega

theorem overlay_length {α : Type} (op : α → α → α) (buf seg : List α) (s : ℕ)
    (h : s + seg.length ≤ buf.length) :
    (buf.take s ++ (List.zipWith op ((buf.drop s).take seg.length) seg ++
      buf.drop (s + seg.length))).length = buf.length := by
  simp only [List.length_append, List.length_zipWith, List.length_take, List.length_drop]
  omega

theorem overlay_getD {α : Type} (d : α) (op : α → α → α) (buf seg : List α) (s : ℕ)
    (h : s + seg.length ≤ buf.length) (i : ℕ) :
    (buf.take s ++ (List.zipWith op ((buf.drop s).take seg.length) seg ++
        buf.drop (s + seg.length))).getD i d
      = if s ≤ i ∧ i < s + seg.length then op (buf.getD i d) (seg.getD (i - s) d)
        else buf.getD i d := by
  have hs : (buf.take s).length = s := by simp; omega
  have hzl : (List.zipWith op ((buf.drop s).take seg.length) seg).length = seg.length := by
    simp only [List.length_zipWith, List.length_take, List.length_drop]
    omega
  by_cases h1 : i < s
  · rw [List.getD_append _ _ _ _ (by omega : i < (buf.take s).length)]
    rw [getD_take_eq d buf s i h1]
    rw [if_neg (by omega)]
  · rw [List.getD_append_right _ _ _ _ (by omega : (buf.take s).length ≤ i)]
    rw [hs]
    by_cases h2 : i < s + seg.length
    · rw [List.getD_append _ _ _ _ (by omega : i - s <
        (List.zipWith op ((buf.drop s).take seg.length) seg).length)]
      rw [getD_zipWith_eq d op _ _ (i - s)
        (by simp only [List.length_take, List.length_drop]; omega) (by omega)]
      rw [getD_take_eq d _ seg.length (i - s) (by omega)]
      rw [getD_drop_eq d buf s (i - s)]
      have : s + (i - s) = i := by omega
      rw [this, if_pos ⟨by omega, h2⟩]
    · rw [List.getD_append_right _ _ _ _ (by omega : (List.zipWith op
        ((buf.drop s).take seg.length) seg).length ≤ i - s)]
      rw [hzl, getD_drop_eq d buf (s + seg.length) (i - s - seg.length)]
      have : s + seg.length + (i - s - seg.length) = i := by omega
      rw [this, if_neg (by omega)]

theorem zipAddRows_eq_some :
    ∀ {a b : List (List ℚ)}, List.Forall₂ (fun (r s : List ℚ) => r.length = s.length) a b →
      zipAddRows a b =
        some (List.zipWith (fun r s => List.zipWith (fun x y => x + y) r s) a b) := by
  intro a b h
  induction h with
  | nil => rfl
  | cons hrd _ ih =>
    simp only [zipAddRows, if_pos hrd, ih, List.zipWith_cons_cons, Option.map]

theorem forall₂_length_of_all {a b : List (List ℚ)} (c : ℕ)
    (ha : ∀ r ∈ a, r.length = c) (hb : ∀ r ∈ b, r.length = c) (hl : a.length = b.length) :
    List.Forall₂ (fun (r s : List ℚ) => r.length = s.length) a b := by
  induction a generalizing b with
  | nil =>
    cases b with
    | nil => exact List.Forall₂.nil
    | cons y ys => simp at hl
  | cons x xs ih =>
    cases b with
    | nil => simp at hl
    | cons y ys =>
      refine List.Forall₂.cons ?_ ?_
      · rw [ha x (by simp), hb y (by simp)]
      · exact ih (fun r hr => ha r (by simp [hr])) (fun r hr => hb r (by simp [hr]))
          (by simpa using hl)

theorem le_resolvedOffset (t : ℚ) (r : ℕ) (c : ℤ) : c ≤ resolvedOffset t r c := by
  unfold resolvedOffset
  split
  · exact le_refl c
  · omega

theorem placedStep_spec {st : St} {srate : ℕ} {fa0 : NArr} {t : ℚ} {dataF : NArr}
    {st2 : St} {ev : Option (ℤ × ℕ)}
    (h : placedStep st srate fa0 t dataF = some (st2, ev)) :
    ev = some (resolvedOffset t srate st.nextAvailable, dataF.len) ∧
      st2.sampleRate = srate ∧
      st2.successCount = st.successCount + 1 ∧
      st2.nextAvailable = resolvedOffset t srate st.nextAvailable + (dataF.len : ℤ) ∧
      ∃ fa2,
        writeClip
          (ensureCapacity srate fa0 (resolvedOffset t srate st.nextAvailable + (dataF.len : ℤ)))
          (resolvedOffset t srate st.nextAvailable) dataF = some fa2 ∧
        st2.finalAudio = some fa2 := by
  simp only [placedStep] at h
  split at h
  · exact absurd h (by simp)
  · rename_i fa2 hw
    rw [Option.some_inj, Prod.mk.injEq] at h
    obtain ⟨hst, hev⟩ := h
    subst hst
    subst hev
    exact ⟨rfl, rfl, rfl, rfl, fa2, hw, rfl⟩

theorem step_skip_failure (td : ℚ) (st : St) (seg : Segment) :
    step td st seg .failure = some (st, none) := by
  unfold step
  split <;> rfl

theorem step_skip_badDecode (td : ℚ) (st : St) (seg : Segment) :
    step td st seg .badDecode = some (st, none) := by
  unfold step
  split <;> rfl

theorem step_skip_mismatch (td : ℚ) (st : St) (seg : Segment) (raw : NArr) (sr : ℕ)
    (fa : NArr) (hfa : st.finalAudio = some fa) (hsr : sr ≠ st.sampleRate) :
    step td st seg (.ok raw sr) = some (st, none) := by
  unfold step
  split
  · rfl
  · rw [hfa]
    simp [hsr]

theorem runLoop_cons_skip (td : ℚ) (st : St) (p : Segment × SynthOutcome)
    (rest : List (Segment × SynthOutcome)) (h : step td st p.1 p.2 = some (st, none)) :
    runLoop td st (p :: rest) = runLoop td st rest := by
  rw [runLoop, h, Option.some_bind]
  cases hr : runLoop td st rest with
  | none => simp
  | some q => simp

theorem step_cursor {td : ℚ} {st : St} {seg : Segment} {out : SynthOutcome}
    {st1 : St} {ev : Option (ℤ × ℕ)} (h : step td st seg out = some (st1, ev)) :
    (ev = none → st1.nextAvailable = st.nextAvailable) ∧
      (∀ o d, ev = some (o, d) →
        st.nextAvailable ≤ o ∧ st1.nextAvailable = o + (d : ℤ)) := by
  unfold step at h
  split at h
  · rw [Option.some_inj, Prod.mk.injEq] at h
    obtain ⟨hst, hev⟩ := h
    subst hst
    subst hev
    exact ⟨fun _ => rfl, fun o d hod => by simp at hod⟩
  · cases out with
    | failure =>
      rw [Option.some_inj, Prod.mk.injEq] at h
      obtain ⟨hst, hev⟩ := h
      subst hst
      subst hev
      exact ⟨fun _ => rfl, fun o d hod => by simp at hod⟩
    | badDecode =>
      rw [Option.some_inj, Prod.mk.injEq] at h
      obtain ⟨hst, hev⟩ := h
      subst hst
      subst hev
      exact ⟨fun _ => rfl, fun o d hod => by simp at hod⟩
    | ok raw sr =>
      simp only at h
      split at h
      · rename_i fa hfa
        split at h
        · rw [Option.some_inj, Prod.mk.injEq] at h
          obtain ⟨hst, hev⟩ := h
          subst hst
          subst hev
          exact ⟨fun _ => rfl, fun o d hod => by simp at hod⟩
        · obtain ⟨hev, _, _, hna, _⟩ := placedStep_spec h
          subst hev
          refine ⟨fun hc => by simp at hc, fun o d hod => ?_⟩
          rw [Option.some_inj, Prod.mk.injEq] at hod
          obtain ⟨ho, hd⟩ := hod
          subst ho
          subst hd
          exact ⟨le_resolvedOffset _ _ _, hna⟩
      · obtain ⟨hev, _, _, hna, _⟩ := placedStep_spec h
        subst hev
        refine ⟨fun hc => by simp at hc, fun o d hod => ?_⟩
        rw [Option.some_inj, Prod.mk.injEq] at hod
        obtain ⟨ho, hd⟩ := hod
        subst ho
        subst hd
        exact ⟨le_resolvedOffset _ _ _, hna⟩

theorem runLoop_chained (td : ℚ) :
    ∀ (l : List (Segment × SynthOutcome)) (st st' : St) (evs : List (ℤ × ℕ)),
      runLoop td st l = some (st', evs) →
      Chained st.nextAvailable evs ∧ st.nextAvailable ≤ st'.nextAvailable := by
  intro l
  induction l with
  | nil =>
    intro st st' evs h
    rw [runLoop, Option.some_inj, Prod.mk.injEq] at h
    obtain ⟨hst, hev⟩ := h
    subst hst
    subst hev
    exact ⟨trivial, le_refl _⟩
  | cons p rest ih =>
    intro st st' evs h
    rw [runLoop] at h
    cases hs : step td st p.1 p.2 with
    | none => rw [hs] at h; simp at h
    | some q =>
      obtain ⟨st1, ev⟩ := q
      rw [hs, Option.some_bind] at h
      cases hr : runLoop td st1 rest with
      | none => rw [hr] at h; simp at h
      | some q2 =>
        obtain ⟨st2, evs2⟩ := q2
        rw [hr] at h
        simp only [Option.map_some', Option.some_inj, Prod.mk.injEq] at h
        obtain ⟨hst, hev⟩ := h
        subst hst
        obtain ⟨ihc, ihm⟩ := ih st1 st2 evs2 hr
        obtain ⟨hnone, hsome⟩ := step_cursor hs
        cases ev with
        | none =>
          subst hev
          rw [hnone rfl] at ihc ihm
          exact ⟨ihc, ihm⟩
        | some e =>
          obtain ⟨o, d⟩ := e
          subst hev
          obtain ⟨hle, hna⟩ := hsome o d rfl
          refine ⟨⟨hle, by rw [← hna]; exact ihc⟩, ?_⟩
          have hd : (0 : ℤ) ≤ (d : ℤ) := by positivity
          omega

theorem chained_adjacent :
    ∀ (evs : List (ℤ × ℕ)) (c : ℤ), Chained c evs →
      ∀ i : ℕ, i + 1 < evs.length →
        (evs.getD i (0, 0)).1 + ((evs.getD i (0, 0)).2 : ℤ) ≤ (evs.getD (i + 1) (0, 0)).1 := by
  intro evs
  induction evs with
  | nil => intro c _ i h; simp at h
  | cons e rest ih =>
    intro c hc i h
    obtain ⟨o, d⟩ := e
    obtain ⟨_, hrest⟩ := hc
    cases i with
    | zero =>
      cases rest with
      | nil => simp at h
      | cons e2 rest2 =>
        obtain ⟨o2, d2⟩ := e2
        obtain ⟨h2, _⟩ := hrest
        simpa using h2
    | succ j =>
      simp only [List.getD_cons_succ]
      exact ih (o + d) hrest j (by simpa using h)

theorem flatten_map_map (f : ℚ → ℚ) :
    ∀ rows : List (List ℚ), (rows.map (fun r => r.map f)).flatten = rows.flatten.map f := by
  intro rows
  induction rows with
  | nil => rfl
  | cons r t ih => simp only [List.map_cons, List.flatten_cons, List.map_append, ih]

theorem entries_mapQ (f : ℚ → ℚ) (a : NArr) : (a.mapQ f).entries = a.entries.map f := by
  cases a with
  | one xs => rfl
  | two rows => exact flatten_map_map f rows

theorem abs_le_peakList : ∀ (l : List ℚ), ∀ x ∈ l, |x| ≤ peakList l := by
  intro l
  induction l with
  | nil => intro x hx; simp at hx
  | cons y t ih =>
    intro x hx
    rcases List.mem_cons.mp hx with h | h
    · subst h; exact le_max_left _ _
    · exact le_trans (ih x h) (le_max_right _ _)

theorem peakList_le (l : List ℚ) (c : ℚ) (hc : 0 ≤ c) (h : ∀ x ∈ l, |x| ≤ c) :
    peakList l ≤ c := by
  induction l with
  | nil => exact hc
  | cons y t ih =>
    exact max_le (h y (by simp)) (ih (fun x hx => h x (by simp [hx])))

/-! ## Claim theorems -/

/-- C2 (counterexample): the code computes the nominal placement sample
with `int()` truncation, not nearest-integer rounding: for a segment
starting at `0.57 s` and sample rate `10`, the run places the clip at
sample `5 = ⌊5.7⌋`, while `round(0.57 × 10) = 6`. -/
theorem C2_round_counterexample :
    runEvents [(⟨57 / 100, 1, ['h', 'i']⟩, .ok (.one [1]) 10)] = some [(5, 1)] ∧
      nominalSample (57 / 100) 10 = 5 ∧
      round ((57 / 100 : ℚ) * ((10 : ℕ) : ℚ)) = 6 :=
  ⟨of_decide_eq_true (by with_unfolding_all rfl),
   of_decide_eq_true (by with_unfolding_all rfl),
   of_decide_eq_true (by with_unfolding_all rfl)⟩

/-- C2 (amended): for every segment with start time `t ≥ 0` and
established sample rate `r`, the nominal placement sample computed before
overlap resolution equals `int(t × r)`, i.e. the floor (truncation toward
zero) of the product, not its nearest-integer rounding. -/
theorem C2_nominal_is_truncation (t : ℚ) (r : ℕ) (h : 0 ≤ t) :
    nominalSample t r = ⌊t * (r : ℚ)⌋ := by
  unfold nominalSample pyTrunc
  rw [if_pos (mul_nonneg h (by positivity))]

/-- C2 witness: the amended statement at `t = 0.57`, `r = 10`. -/
theorem C2_truncation_witness :
    nominalSample (57 / 100) 10 = ⌊(57 / 100 : ℚ) * ((10 : ℕ) : ℚ)⌋ :=
  C2_nominal_is_truncation (57 / 100) 10 (of_decide_eq_true (by with_unfolding_all rfl))

/-- C3 (counterexample): a run whose single segment fails synthesis
places zero segments and, as claimed, produces no output file — but it
returns normally with process exit status `0`, not a non-zero outcome. -/
theorem C3_exit_zero_counterexample :
    runEvents [(⟨0, 1, ['a']⟩, .failure)] = some [] ∧
      srt_to_audio [(⟨0, 1, ['a']⟩, .failure)] = .finished none ∧
      (srt_to_audio [(⟨0, 1, ['a']⟩, .failure)]).exitCode = 0 :=
  ⟨of_decide_eq_true (by with_unfolding_all rfl),
   of_decide_eq_true (by with_unfolding_all rfl),
   of_decide_eq_true (by with_unfolding_all rfl)⟩

/-- C3 (amended): if zero segments reach the placed state in a
non-crashing run over at least one segment (`success_count = 0`), the run
produces no output file and logs failure, but the process terminates with
exit status `0` (the save branch is simply skipped; there is no
`sys.exit` on this path). -/
theorem C3_zero_placed_no_output (inputs : List (Segment × SynthOutcome))
    (st : St) (evs : List (ℤ × ℕ)) (hne : inputs ≠ [])
    (h : runLoop (maxEnd (inputs.map Prod.fst) + 1) initSt inputs = some (st, evs))
    (hz : st.successCount = 0) :
    srt_to_audio inputs = .finished none ∧ (srt_to_audio inputs).exitCode = 0 := by
  have hfin : finishRun st = none := by
    unfold finishRun
    cases hfa : st.finalAudio with
    | none => rfl
    | some fa => rw [hz]; simp
  have hrun : srt_to_audio inputs = .finished (finishRun st) := by
    unfold srt_to_audio
    rw [if_neg hne, h]
  rw [hrun, hfin]
  exact ⟨rfl, rfl⟩

/-- C3 witness: the amended statement on a one-segment run whose
synthesis fails. -/
theorem C3_zero_placed_witness :
    srt_to_audio [(⟨0, 1, ['a']⟩, .failure)] = .finished none ∧
      (srt_to_audio [(⟨0, 1, ['a']⟩, .failure)]).exitCode = 0 :=
  C3_zero_placed_no_output [(⟨0, 1, ['a']⟩, .failure)] initSt []
    (by simp) (of_decide_eq_true (by with_unfolding_all rfl)) rfl

/-- C5: along any run of the segment loop, adjacent placement events
never overlap backwards — each later clip's resolved offset is at least
the previous clip's offset plus its length; when the nominal sample falls
before the cursor, the resolved offset is forced to the cursor; and the
cursor `next_available_sample` is monotonically non-decreasing across the
run. -/
theorem C5_no_backward_overlap (td : ℚ) (st st' : St)
    (inputs : List (Segment × SynthOutcome)) (evs : List (ℤ × ℕ))
    (h : runLoop td st inputs = some (st', evs)) :
    (∀ i : ℕ, i + 1 < evs.length →
        (evs.getD i (0, 0)).1 + ((evs.getD i (0, 0)).2 : ℤ) ≤ (evs.getD (i + 1) (0, 0)).1) ∧
      (∀ (t : ℚ) (r : ℕ) (c : ℤ), nominalSample t r < c → resolvedOffset t r c = c) ∧
      st.nextAvailable ≤ st'.nextAvailable := by
  obtain ⟨hc, hm⟩ := runLoop_chained td inputs st st' evs h
  refine ⟨chained_adjacent evs st.nextAvailable hc, ?_, hm⟩
  intro t r c hlt
  unfold resolvedOffset
  rw [if_pos hlt]

/-- C5 witness: a run with two clips whose nominal starts coincide; the
second is shifted to start at the first clip's end. -/
theorem C5_no_backward_overlap_witness :
    (0 : ℤ) + ((2 : ℕ) : ℤ) ≤ 2 ∧ ((0 : ℤ) ≤ 3) := by
  have h := C5_no_backward_overlap 2 initSt
    ⟨some (.one [1, 1, 1, 0, 0, 0, 0, 0]), 4, 2, 3⟩
    [(⟨0, 1, ['a']⟩, .ok (.one [1, 1]) 4), (⟨0, 1, ['b']⟩, .ok (.one [1]) 4)]
    [(0, 2), (2, 1)]
    (of_decide_eq_true (by with_unfolding_all rfl))
  exact ⟨h.1 0 (by decide), h.2.2⟩

/-- C6: each of the three per-segment failures — synthesis returning no
data, decode failure, and a sample-rate mismatch against the established
timeline rate — leaves the loop state unchanged and skips only that
segment: the run over the remaining segments is exactly the run without
the failed one, so a per-segment failure never terminates the run. -/
theorem C6_per_segment_failures_skip (td : ℚ) (st : St) (seg : Segment)
    (rest : List (Segment × SynthOutcome)) :
    (step td st seg .failure = some (st, none) ∧
        runLoop td st ((seg, .failure) :: rest) = runLoop td st rest) ∧
      (step td st seg .badDecode = some (st, none) ∧
        runLoop td st ((seg, .badDecode) :: rest) = runLoop td st rest) ∧
      (∀ (raw : NArr) (sr : ℕ) (fa : NArr), st.finalAudio = some fa → sr ≠ st.sampleRate →
        step td st seg (.ok raw sr) = some (st, none) ∧
          runLoop td st ((seg, .ok raw sr) :: rest) = runLoop td st rest) := by
  refine ⟨⟨step_skip_failure td st seg,
      runLoop_cons_skip td st (seg, .failure) rest (step_skip_failure td st seg)⟩,
    ⟨step_skip_badDecode td st seg,
      runLoop_cons_skip td st (seg, .badDecode) rest (step_skip_badDecode td st seg)⟩,
    ?_⟩
  intro raw sr fa hfa hsr
  exact ⟨step_skip_mismatch td st seg raw sr fa hfa hsr,
    runLoop_cons_skip td st (seg, .ok raw sr) rest
      (step_skip_mismatch td st seg raw sr fa hfa hsr)⟩

/-- C6 witness: a clip with sample rate `7` against an established
timeline at `8` is skipped with the state untouched. -/
theorem C6_per_segment_failures_witness :
    step 2 ⟨some (.one [0, 0]), 8, 1, 1⟩ ⟨0, 1, ['h']⟩ (.ok (.one [1]) 7) =
        some (⟨some (.one [0, 0]), 8, 1, 1⟩, none) ∧
      runLoop 2 ⟨some (.one [0, 0]), 8, 1, 1⟩ [(⟨0, 1, ['h']⟩, .ok (.one [1]) 7)] =
        runLoop 2 ⟨some (.one [0, 0]), 8, 1, 1⟩ [] :=
  (C6_per_segment_failures_skip 2 ⟨some (.one [0, 0]), 8, 1, 1⟩ ⟨0, 1, ['h']⟩ []).2.2
    (.one [1]) 7 (.one [0, 0]) rfl (by decide)

/-- C1: both composition strategies hold — compact mode (modelled from
the spec, code not under `src/`) concatenates clips with the default
200 ms gap and regenerates the timing record, so three 1.0 s segments
yield timestamps 0.0–1.0, 1.2–2.2, 2.4–3.4 (Scenario E); and the timed
strategy of `src/main.py` places every clip at its timestamp-resolved
offset (`resolvedOffset` of the nominal sample against the cursor). -/
theorem C1_composition_strategies :
    compactTimestamps [1, 1, 1] gapDefault = [(0, 1), (6/5, 11/5), (12/5, 17/5)] ∧
      ∀ (td : ℚ) (st : St) (seg : Segment) (raw : NArr) (sr : ℕ) (st2 : St) (o : ℤ) (d : ℕ),
        step td st seg (.ok raw sr) = some (st2, some (o, d)) →
        o = resolvedOffset seg.start st2.sampleRate st.nextAvailable ∧
          d = (fadeNArr sr raw).len := by
  constructor
  · exact of_decide_eq_true (by with_unfolding_all rfl)
  · intro td st seg raw sr st2 o d h
    unfold step at h
    split at h
    · simp at h
    · simp only at h
      split at h
      · rename_i fa hfa
        split at h
        · simp at h
        · obtain ⟨hev, hsr2, _, _, _⟩ := placedStep_spec h
          rw [Option.some_inj, Prod.mk.injEq] at hev
          obtain ⟨ho, hd⟩ := hev
          rw [hsr2]
          exact ⟨ho, hd⟩
      · obtain ⟨hev, hsr2, _, _, _⟩ := placedStep_spec h
        rw [Option.some_inj, Prod.mk.injEq] at hev
        obtain ⟨ho, hd⟩ := hev
        rw [hsr2]
        exact ⟨ho, hd⟩

/-- C1 witness: the timed part at a concrete placed step. -/
theorem C1_composition_strategies_witness :
    step 2 initSt ⟨0, 1, ['a']⟩ (.ok (.one [1, 1]) 4) =
        some (⟨some (.one [1, 1, 0, 0, 0, 0, 0, 0]), 4, 1, 2⟩, some (0, 2)) ∧
      (0 : ℤ) = resolvedOffset (0 : ℚ) 4 0 ∧ 2 = (fadeNArr 4 (.one [1, 1])).len := by
  have hstep : step 2 initSt ⟨0, 1, ['a']⟩ (.ok (.one [1, 1]) 4) =
      some (⟨some (.one [1, 1, 0, 0, 0, 0, 0, 0]), 4, 1, 2⟩, some (0, 2)) :=
    of_decide_eq_true (by with_unfolding_all rfl)
  have h2 := C1_composition_strategies.2 2 initSt ⟨0, 1, ['a']⟩ (.one [1, 1]) 4
    ⟨some (.one [1, 1, 0, 0, 0, 0, 0, 0]), 4, 1, 2⟩ 0 2 hstep
  exact ⟨hstep, h2.1, h2.2⟩

/-- C7: the normalizer computes the peak absolute sample of the buffer;
a buffer whose peak is at most `1` is returned exactly unchanged, and a
buffer whose peak exceeds `1` is divided samplewise by the peak, after
which its peak is at most `1`. -/
theorem C7_normalizer (a : NArr) :
    (peak a ≤ 1 → normalizeArr a = a) ∧
      (1 < peak a →
        normalizeArr a = a.mapQ (fun x => x / peak a) ∧ peak (normalizeArr a) ≤ 1) := by
  constructor
  · intro h
    unfold normalizeArr
    rw [if_neg (not_lt.mpr h)]
  · intro h
    have hm : normalizeArr a = a.mapQ (fun x => x / peak a) := by
      unfold normalizeArr
      rw [if_pos h]
    refine ⟨hm, ?_⟩
    rw [hm]
    have hpos : (0 : ℚ) < peak a := lt_trans one_pos h
    show peakList (NArr.mapQ (fun x => x / peak a) a).entries ≤ 1
    rw [entries_mapQ]
    apply peakList_le _ _ (by norm_num)
    intro x hx
    rcases List.mem_map.mp hx with ⟨y, hy, rfl⟩
    rw [abs_div, abs_of_pos hpos, div_le_one hpos]
    exact abs_le_peakList a.entries y hy

/-- C7 witness: a quiet buffer is untouched; a loud buffer is rescaled to
peak `1`. -/
theorem C7_normalizer_witness :
    normalizeArr (.one [1/2]) = .one [1/2] ∧
      normalizeArr (.one [2]) = NArr.mapQ (fun x => x / peak (.one [2])) (.one [2]) ∧
      peak (normalizeArr (.one [2])) ≤ 1 := by
  have h2 := (C7_normalizer (.one [2])).2 (of_decide_eq_true (by with_unfolding_all rfl))
  exact ⟨(C7_normalizer (.one [1/2])).1 (of_decide_eq_true (by with_unfolding_all rfl)),
    h2.1, h2.2⟩

theorem growList_parts {α : Type} (z : α) (l : List α) (n : ℕ) (h : l.length ≤ n) :
    (growList z l n).length = n ∧ (growList z l n).take l.length = l ∧
      ∀ (d : α) (i : ℕ), l.length ≤ i → i < n → (growList z l n).getD i d = z := by
  unfold growList
  refine ⟨by simp only [List.length_append, List.length_replicate]; omega, ?_, ?_⟩
  · rw [List.take_left]
  · intro d i h1 h2
    rw [List.getD_append_right _ _ _ _ h1]
    exact getD_replicate_lt d z _ _ (by omega)

/-- C8: the fader is a no-op on clips not longer than twice the fade
window (`fade_samples = int(0.05 × sr)`), and on longer clips multiplies
the first `fade_samples` frames by the linear 0→1 ramp and the last
`fade_samples` frames by the reversed 1→0 ramp, leaving the middle
untouched; for 2-D clips the per-frame gain is broadcast across all
channels; the ramp indeed runs from `0` to `1`. -/
theorem C8_fader (sr : ℕ) :
    (∀ a : NArr, a.len ≤ 2 * (sr / 20) → fadeNArr sr a = a) ∧
      (∀ xs : List ℚ, 2 * (sr / 20) < xs.length →
        ∃ ys, fadeNArr sr (.one xs) = .one ys ∧ ys.length = xs.length ∧
          (∀ i, i < sr / 20 → ys.getD i 0 = xs.getD i 0 * linspace01 (sr / 20) i) ∧
          (∀ i, xs.length - sr / 20 ≤ i → i < xs.length →
            ys.getD i 0 = xs.getD i 0 * linspace01 (sr / 20) (xs.length - 1 - i)) ∧
          (∀ i, sr / 20 ≤ i → i < xs.length - sr / 20 → ys.getD i 0 = xs.getD i 0)) ∧
      (∀ rows : List (List ℚ), 2 * (sr / 20) < rows.length →
        ∃ rs, fadeNArr sr (.two rows) = .two rs ∧ rs.length = rows.length ∧
          ∀ i j, i < rows.length →
            (rs.getD i []).getD j 0 =
              (rows.getD i []).getD j 0 * fadeCoef (sr / 20) rows.length i) ∧
      (∀ n : ℕ, 2 ≤ n → linspace01 n 0 = 0 ∧ linspace01 n (n - 1) = 1) := by
  refine ⟨?_, ?_, ?_, ?_⟩
  · intro a ha
    simp only [fadeNArr]
    rw [if_neg (by intro hc; omega)]
  · intro xs h2
    by_cases hfs : 0 < sr / 20
    · refine ⟨mapIdxG (fun i x => x * fadeCoef (sr / 20) xs.length i) 0 xs, ?_,
        mapIdxG_length _ 0 xs, ?_, ?_, ?_⟩
      · simp only [fadeNArr]
        rw [if_pos ⟨hfs, by simp only [NArr.len]; omega⟩]
        simp only [NArr.len]
      · intro i hi
        rw [mapIdxG_getD 0 _ xs 0 i (by omega)]
        simp only [Nat.zero_add]
        congr 1
        unfold fadeCoef
        rw [if_pos hi]
      · intro i hge hlt
        rw [mapIdxG_getD 0 _ xs 0 i hlt]
        simp only [Nat.zero_add]
        congr 1
        unfold fadeCoef
        rw [if_neg (by omega), if_pos (by omega)]
      · intro i hge hlt
        rw [mapIdxG_getD 0 _ xs 0 i (by omega)]
        simp only [Nat.zero_add]
        rw [show fadeCoef (sr / 20) xs.length i = 1 from by
          unfold fadeCoef; rw [if_neg (by omega), if_neg (by omega)]]
        exact mul_one _
    · refine ⟨xs, ?_, rfl, ?_, ?_, fun i _ _ => rfl⟩
      · simp only [fadeNArr]
        rw [if_neg (by intro hc; exact absurd hc.1 (by omega))]
      · intro i hi
        exact absurd hi (by omega)
      · intro i hge hlt
        exact absurd hlt (by omega)
  · intro rows h2
    by_cases hfs : 0 < sr / 20
    · refine ⟨mapIdxG (fun i r => r.map (fun x => x * fadeCoef (sr / 20) rows.length i)) 0 rows,
        ?_, mapIdxG_length _ 0 rows, ?_⟩
      · simp only [fadeNArr]
        rw [if_pos ⟨hfs, by simp only [NArr.len]; omega⟩]
        simp only [NArr.len]
      · intro i j hi
        rw [mapIdxG_getD [] _ rows 0 i hi]
        simp only [Nat.zero_add]
        exact getD_map_mul _ _ j
    · refine ⟨rows, ?_, rfl, ?_⟩
      · simp only [fadeNArr]
        rw [if_neg (by intro hc; exact absurd hc.1 (by omega))]
      · intro i j hi
        rw [show fadeCoef (sr / 20) rows.length i = 1 from by
          unfold fadeCoef; rw [if_neg (by omega), if_neg (by omega)]]
        exact (mul_one _).symm
  · intro n hn
    constructor
    · unfold linspace01
      rw [if_neg (by omega)]
      simp
    · unfold linspace01
      rw [if_neg (by omega), Nat.cast_sub (by omega), Nat.cast_one]
      refine div_self ?_
      have hcast : (2 : ℚ) ≤ (n : ℚ) := by exact_mod_cast hn
      intro h0
      rw [sub_eq_zero] at h0
      rw [h0] at hcast
      norm_num at hcast

/-- C8 witness: a 4-frame clip at `sr = 40` (fade window 2) is left
untouched, and the ramp endpoints evaluate to `0` and `1`. -/
theorem C8_fader_witness :
    fadeNArr 40 (.one [1, 1, 1, 1]) = .one [1, 1, 1, 1] ∧
      linspace01 2 0 = 0 ∧ linspace01 2 (2 - 1) = 1 := by
  have h4 := (C8_fader 40).2.2.2 2 (by omega)
  exact ⟨(C8_fader 40).1 (.one [1, 1, 1, 1]) (by decide), h4.1, h4.2⟩

/-- C9: when a clip's end sample exceeds the buffer length,
`ensureCapacity` reallocates to exactly `end_sample + 10 × sample_rate`
frames, keeps the old contents as the prefix and zero-fills the
remainder (both for 1-D and 2-D buffers); and the write adds the clip
samplewise into the window rather than overwriting: every in-window
output sample is the old buffer sample plus the clip sample, every
out-of-window sample is unchanged. -/
theorem C9_capacity_and_additive_mix (sr : ℕ) :
    (∀ (xs : List ℚ) (endS : ℤ), ((NArr.one xs).len : ℤ) < endS →
      ∃ ys, ensureCapacity sr (.one xs) endS = .one ys ∧
        ys.length = (endS + (sr : ℤ) * 10).toNat ∧
        ys.take xs.length = xs ∧
        ∀ i, xs.length ≤ i → i < (endS + (sr : ℤ) * 10).toNat → ys.getD i 0 = 0) ∧
      (∀ (rows : List (List ℚ)) (endS : ℤ), ((NArr.two rows).len : ℤ) < endS →
        ∃ rs, ensureCapacity sr (.two rows) endS = .two rs ∧
          rs.length = (endS + (sr : ℤ) * 10).toNat ∧
          rs.take rows.length = rows ∧
          ∀ i, rows.length ≤ i → i < (endS + (sr : ℤ) * 10).toNat →
            rs.getD i [] = List.replicate (rowCols rows) 0) ∧
      (∀ (buf data : List ℚ) (s : ℕ), s + data.length ≤ buf.length →
        ∃ r, writeClip (.one buf) ((s : ℕ) : ℤ) (.one data) = some (.one r) ∧
          r.length = buf.length ∧
          ∀ i, r.getD i 0 = buf.getD i 0 +
            (if s ≤ i ∧ i < s + data.length then data.getD (i - s) 0 else 0)) := by
  refine ⟨?_, ?_, ?_⟩
  · intro xs endS hlt
    have hlen : xs.length ≤ (endS + (sr : ℤ) * 10).toNat := by
      simp only [NArr.len] at hlt
      omega
    obtain ⟨h1, h2, h3⟩ := growList_parts (0 : ℚ) xs ((endS + (sr : ℤ) * 10).toNat) hlen
    refine ⟨growList 0 xs ((endS + (sr : ℤ) * 10).toNat), ?_, h1, h2,
      fun i ha hb => h3 0 i ha hb⟩
    unfold ensureCapacity
    rw [if_pos hlt]
    rfl
  · intro rows endS hlt
    have hlen : rows.length ≤ (endS + (sr : ℤ) * 10).toNat := by
      simp only [NArr.len] at hlt
      omega
    obtain ⟨h1, h2, h3⟩ :=
      growList_parts (List.replicate (rowCols rows) 0) rows ((endS + (sr : ℤ) * 10).toNat) hlen
    refine ⟨growList (List.replicate (rowCols rows) 0) rows ((endS + (sr : ℤ) * 10).toNat),
      ?_, h1, h2, fun i ha hb => h3 [] i ha hb⟩
    unfold ensureCapacity
    rw [if_pos hlt]
    rfl
  · intro buf data s h
    unfold writeClip sliceAdd
    rw [if_neg (by omega)]
    simp only [Int.toNat_natCast]
    rw [if_pos h]
    rw [List.append_assoc]
    refine ⟨_, rfl, ?_, ?_⟩
    · exact overlay_length (fun x y => x + y) buf data s h
    · intro i
      rw [overlay_getD 0 (fun x y => x + y) buf data s h i]
      by_cases hw : s ≤ i ∧ i < s + data.length
      · rw [if_pos hw, if_pos hw]
      · rw [if_neg hw, if_neg hw]
        exact (add_zero _).symm

/-- C9 witness: growth from 1 frame to 3 with zero fill, and an additive
in-window write. -/
theorem C9_capacity_witness :
    (ensureCapacity 0 (.one [5]) 3).len = ((3 : ℤ) + (0 : ℤ) * 10).toNat ∧
      (writeClip (.one [0, 0, 0]) ((1 : ℕ) : ℤ) (.one [7])).isSome = true := by
  constructor
  · obtain ⟨ys, h1, h2, _, _⟩ := (C9_capacity_and_additive_mix 0).1 [5] 3 (by decide)
    rw [h1]
    exact h2
  · obtain ⟨r, h1, _, _⟩ := (C9_capacity_and_additive_mix 0).2.2 [0, 0, 0] [7] 1 (by decide)
    rw [h1]
    rfl

/-- C4 (counterexample): channel adaptation is one-directional.  A run
whose first clip is mono (1-D buffer) and whose second clip is stereo
crashes on the broadcast error of `final_audio[start:end] += data`; at
the write level, adding a 2-D clip into a 1-D buffer fails. -/
theorem C4_broadcast_crash_counterexample :
    srt_to_audio [(⟨0, 1, ['a']⟩, .ok (.one [1, 1, 1]) 8),
        (⟨0, 1, ['b']⟩, .ok (.two [[1, 1], [1, 1]]) 8)] = .crashed ∧
      writeClip (.one [0, 0, 0]) 0 (.two [[1, 1]]) = none :=
  ⟨of_decide_eq_true (by with_unfolding_all rfl),
   of_decide_eq_true (by with_unfolding_all rfl)⟩

/-- C4 (amended): only the direction stereo buffer / mono clip is
adapted — the mono clip is duplicated across two channels
(`np.column_stack`) before the additive mix, and the write then
completes; in the converse direction (mono buffer, stereo clip) no
adaptation happens and the write fails with a broadcast error that
aborts the run. -/
theorem C4_channel_adaptation (rows : List (List ℚ)) (xs : List ℚ) (s : ℕ)
    (hrows : ∀ r ∈ rows, r.length = 2) (hbound : s + xs.length ≤ rows.length) :
    writeClip (.two rows) ((s : ℕ) : ℤ) (.one xs) =
        sliceAdd (.two rows) ((s : ℕ) : ℤ) (.two (xs.map (fun x => [x, x]))) ∧
      (∃ mixed, writeClip (.two rows) ((s : ℕ) : ℤ) (.one xs) = some (.two mixed) ∧
        mixed.length = rows.length) ∧
      (∀ (buf : List ℚ) (start : ℤ) (drows : List (List ℚ)),
        writeClip (.one buf) start (.two drows) = none) := by
  refine ⟨rfl, ?_, ?_⟩
  · have hf2 : List.Forall₂ (fun (r t : List ℚ) => r.length = t.length)
        ((rows.drop s).take (xs.map (fun x => [x, x])).length) (xs.map (fun x => [x, x])) := by
      apply forall₂_length_of_all 2
      · intro r hr
        exact hrows r (List.drop_subset _ _ (List.take_subset _ _ hr))
      · intro r hr
        rcases List.mem_map.mp hr with ⟨x, _, rfl⟩
        rfl
      · simp only [List.length_take, List.length_drop, List.length_map]
        omega
    have hz := zipAddRows_eq_some hf2
    unfold writeClip sliceAdd
    rw [if_neg (by omega)]
    simp only [Int.toNat_natCast]
    rw [if_pos (by simp only [List.length_map]; omega)]
    rw [hz]
    refine ⟨_, rfl, ?_⟩
    simp only [List.length_append, List.length_zipWith, List.length_take, List.length_drop,
      List.length_map]
    omega
  · intro buf start drows
    show sliceAdd (.one buf) start (.two drows) = none
    simp only [sliceAdd]
    split
    · rfl
    · rfl

/-- C4 witness: a mono clip mixed into a stereo buffer is duplicated and
the write completes; a stereo clip into a mono buffer fails. -/
theorem C4_channel_adaptation_witness :
    writeClip (.two [[0, 0], [0, 0]]) ((1 : ℕ) : ℤ) (.one [9]) =
        sliceAdd (.two [[0, 0], [0, 0]]) ((1 : ℕ) : ℤ) (.two ([9].map (fun x => [x, x]))) ∧
      writeClip (.one [0]) 0 (.two [[1, 1]]) = none := by
  have h := C4_channel_adaptation [[0, 0], [0, 0]] [9] 1
    (of_decide_eq_true (by with_unfolding_all rfl)) (by decide)
  exact ⟨h.1, h.2.2 [0] 0 [[1, 1]]⟩

theorem parse_time_of_bad (s : List Char) (h : timeShapeOk s = false) : parse_time s = 0 := by
  unfold parse_time
  cases hf : parse_time_fields s with
  | none => rfl
  | some q =>
    unfold timeShapeOk at h
    rw [hf] at h
    simp at h

/-- C10: a timestamp string that is not of the form `H:M:S,mmm` with
integer fields makes `parse_time` return `0.0` instead of raising; an SRT
block whose timestamp line splits on `' --> '` into two parts with both
times malformed is therefore kept as a segment with start and end `0.0`
rather than discarded. -/
theorem C10_malformed_times_zero :
    (∀ s : List Char, timeShapeOk s = false → parse_time s = 0) ∧
      (∀ (blk : List Char) (tl : List Char) (rest : List (List Char)) (a b : List Char),
        2 ≤ (cleanLines blk).length →
        findTimeLine (cleanLines blk) = some (tl, rest) →
        pySplit arrowSep tl = [a, b] →
        timeShapeOk (pyStrip a) = false →
        timeShapeOk (pyStrip b) = false →
        processBlock blk = some ⟨0, 0, pyStrip (joinSpace rest)⟩) := by
  refine ⟨parse_time_of_bad, ?_⟩
  intro blk tl rest a b hlen hfind hsplit ha hb
  unfold processBlock
  rw [if_neg (by omega), hfind, Option.some_bind]
  show (match pySplit arrowSep tl with
    | [a, b] =>
      some ⟨parse_time (pyStrip a), parse_time (pyStrip b), pyStrip (joinSpace rest)⟩
    | _ => none : Option Segment) = some ⟨0, 0, pyStrip (joinSpace rest)⟩
  rw [hsplit]
  show (some ⟨parse_time (pyStrip a), parse_time (pyStrip b), pyStrip (joinSpace rest)⟩ :
      Option Segment) = some ⟨0, 0, pyStrip (joinSpace rest)⟩
  rw [parse_time_of_bad _ ha, parse_time_of_bad _ hb]

/-- C10 witness: the block `"1\nabc --> def\nhello"` has a `-->` line
whose two halves are malformed; it is kept with start and end `0.0`. -/
theorem C10_malformed_times_witness :
    timeShapeOk (pyStrip ['a', 'b', 'c']) = false ∧
      processBlock
          ['1', '\n', 'a', 'b', 'c', ' ', '-', '-', '>', ' ', 'd', 'e', 'f', '\n',
            'h', 'e', 'l', 'l', 'o'] =
        some ⟨0, 0, pyStrip (joinSpace [['h', 'e', 'l', 'l', 'o']])⟩ := by
  refine ⟨by decide, ?_⟩
  exact C10_malformed_times_zero.2
    ['1', '\n', 'a', 'b', 'c', ' ', '-', '-', '>', ' ', 'd', 'e', 'f', '\n',
      'h', 'e', 'l', 'l', 'o']
    ['a', 'b', 'c', ' ', '-', '-', '>', ' ', 'd', 'e', 'f']
    [['h', 'e', 'l', 'l', 'o']]
    ['a', 'b', 'c'] ['d', 'e', 'f']
    (by decide) (by decide) (by decide) (by decide) (by decide)
